import Mathlib

/-!
Shallow embedding of `src/yearly_contribution_text.py`.

Python strings are modelled as `List Char`; the module-level dict
`CHAR_MAP` is modelled as an association list looked up with `List.find?`
(first matching key wins, as in a dict with distinct keys).  `str.lower`
is modelled by `Char.toLower` mapped over the characters, which agrees
with Python on the ASCII inputs the program handles.
-/

/-- The module-level CHAR_MAP dict: each supported character maps to its
7 glyph rows, transcribed verbatim from the source. -/
def CHAR_MAP_entries : List (Char × List String) :=
  [ ('a', [r"0110", r"1001", r"1111", r"1001", r"1001", r"0000", r"0000"]),
    ('b', [r"1110", r"1001", r"1110", r"1001", r"1110", r"0000", r"0000"]),
    ('c', [r"0111", r"1000", r"1000", r"1000", r"0111", r"0000", r"0000"]),
    ('d', [r"1110", r"1001", r"1001", r"1001", r"1110", r"0000", r"0000"]),
    ('e', [r"1111", r"1000", r"1110", r"1000", r"1111", r"0000", r"0000"]),
    ('f', [r"1111", r"1000", r"1110", r"1000", r"1000", r"0000", r"0000"]),
    ('g', [r"0111", r"1000", r"1011", r"1001", r"0111", r"0000", r"0000"]),
    ('h', [r"1001", r"1001", r"1111", r"1001", r"1001", r"0000", r"0000"]),
    ('i', [r"111", r"010", r"010", r"010", r"111", r"000", r"000"]),
    ('j', [r"0011", r"0001", r"0001", r"1001", r"0110", r"0000", r"0000"]),
    ('k', [r"1001", r"1010", r"1100", r"1010", r"1001", r"0000", r"0000"]),
    ('l', [r"1000", r"1000", r"1000", r"1000", r"1111", r"0000", r"0000"]),
    ('m', [r"10001", r"11011", r"10101", r"10001", r"10001", r"00000", r"00000"]),
    ('n', [r"1001", r"1101", r"1011", r"1001", r"1001", r"0000", r"0000"]),
    ('o', [r"0110", r"1001", r"1001", r"1001", r"0110", r"0000", r"0000"]),
    ('p', [r"1110", r"1001", r"1110", r"1000", r"1000", r"0000", r"0000"]),
    ('q', [r"0110", r"1001", r"1001", r"1011", r"0111", r"0000", r"0000"]),
    ('r', [r"1110", r"1001", r"1110", r"1010", r"1001", r"0000", r"0000"]),
    ('s', [r"0111", r"1000", r"0110", r"0001", r"1110", r"0000", r"0000"]),
    ('t', [r"11111", r"00100", r"00100", r"00100", r"00100", r"00000", r"00000"]),
    ('u', [r"1001", r"1001", r"1001", r"1001", r"0110", r"0000", r"0000"]),
    ('v', [r"1001", r"1001", r"1001", r"0101", r"0010", r"0000", r"0000"]),
    ('w', [r"10001", r"10001", r"10101", r"11011", r"10001", r"00000", r"00000"]),
    ('x', [r"1001", r"0101", r"0010", r"0101", r"1001", r"0000", r"0000"]),
    ('y', [r"1001", r"0101", r"0010", r"0010", r"0010", r"0000", r"0000"]),
    ('z', [r"1111", r"0001", r"0010", r"0100", r"1111", r"0000", r"0000"]),
    ('0', [r"0110", r"1001", r"1001", r"1001", r"0110", r"0000", r"0000"]),
    ('1', [r"010", r"110", r"010", r"010", r"111", r"000", r"000"]),
    ('2', [r"0110", r"1001", r"0010", r"0100", r"1111", r"0000", r"0000"]),
    ('3', [r"1110", r"0001", r"0110", r"0001", r"1110", r"0000", r"0000"]),
    ('4', [r"1001", r"1001", r"1111", r"0001", r"0001", r"0000", r"0000"]),
    ('5', [r"1111", r"1000", r"1110", r"0001", r"1110", r"0000", r"0000"]),
    ('6', [r"0111", r"1000", r"1110", r"1001", r"0110", r"0000", r"0000"]),
    ('7', [r"1111", r"0001", r"0010", r"0100", r"0100", r"0000", r"0000"]),
    ('8', [r"0110", r"1001", r"0110", r"1001", r"0110", r"0000", r"0000"]),
    ('9', [r"0110", r"1001", r"0111", r"0001", r"1110", r"0000", r"0000"]) ]

/-- `CHAR_MAP.get(c)`: dict lookup returning the glyph rows (as character
lists) or `none` for an unsupported character. -/
def CHAR_MAP (c : Char) : Option (List (List Char)) :=
  (CHAR_MAP_entries.find? (fun p => p.1 == c)).map
    (fun p => p.2.map String.toList)

/-- `get_char_width(char)`: width of a character's glyph, 0 if unsupported. -/
def get_char_width (c : Char) : Nat :=
  match CHAR_MAP c.toLower with
  | some g => g.headI.length
  | none => 0

/-- `get_max_chars(graph_width, avg_char_width, spacing)`: the coarse
character cap `graph_width // (avg_char_width + spacing)`. -/
def get_max_chars (graph_width avg_char_width spacing : Nat) : Nat :=
  graph_width / (avg_char_width + spacing)

/-- One iteration's row update: `bitmap_rows[i] += char_bitmap[i] + "0"`
for each of the 7 rows. -/
def appendGlyph (rows g : List (List Char)) : List (List Char) :=
  List.zipWith (fun r gr => r ++ gr ++ ['0']) rows g

/-- The `for char in text` loop of `build_bitmap`, carrying `total_width`
and the accumulator rows; `break` on overflow returns the rows built so
far, an unsupported character is skipped. -/
def buildLoop : List Char → Nat → List (List Char) → List (List Char)
  | [], _, rows => rows
  | c :: rest, total_width, rows =>
    match CHAR_MAP c with
    | none => buildLoop rest total_width rows
    | some char_bitmap =>
      let char_width := char_bitmap.headI.length + 1
      if total_width + char_width > 52 then rows
      else buildLoop rest (total_width + char_width) (appendGlyph rows char_bitmap)

/-- `text.lower()` followed by `text[:get_max_chars()]`: the input as the
loop of `build_bitmap` sees it. -/
def prepared_text (text : List Char) : List Char :=
  (text.map Char.toLower).take (get_max_chars 52 4 1)

/-- The accumulator rows after the loop of `build_bitmap`, before the
downward shift. -/
def rawRows (text : List Char) : List (List Char) :=
  buildLoop (prepared_text text) 0 (List.replicate 7 [])

/-- `build_bitmap(text)`: lowercase, coarse pre-truncation, the glyph
loop, then the downward shift
`bitmap_rows = ["0" * len(bitmap_rows[0])] + bitmap_rows[:-1]`. -/
def build_bitmap (text : List Char) : List (List Char) :=
  let rows := rawRows text
  List.replicate rows.headI.length '0' :: rows.dropLast

/-- Variant of `build_bitmap` with the coarse pre-truncation
`text = text[:max_chars]` removed; the loop body is unchanged. -/
def build_bitmap_no_pretrunc (text : List Char) : List (List Char) :=
  let rows := buildLoop (text.map Char.toLower) 0 (List.replicate 7 [])
  List.replicate rows.headI.length '0' :: rows.dropLast

/-- Observer of the loop of `build_bitmap`: the position (counted from the
start of the remaining text) at which the overflow `break` fires, or
`none` when the loop runs to completion. -/
def truncIndex : List Char → Nat → Option Nat
  | [], _ => none
  | c :: rest, total_width =>
    match CHAR_MAP c with
    | none => (truncIndex rest total_width).map (fun k => k + 1)
    | some char_bitmap =>
      let char_width := char_bitmap.headI.length + 1
      if total_width + char_width > 52 then some 0
      else (truncIndex rest (total_width + char_width)).map (fun k => k + 1)

/-- The character index at which `build_bitmap text` stops early because
the next glyph would exceed the 52-column limit (`none` if it never
stops early). -/
def build_trunc_index (text : List Char) : Option Nat :=
  truncIndex (prepared_text text) 0

/-- Observer of the loop of `build_bitmap`: the characters whose glyphs
are actually appended to the accumulator rows. -/
def keptChars : List Char → Nat → List Char
  | [], _ => []
  | c :: rest, total_width =>
    match CHAR_MAP c with
    | none => keptChars rest total_width
    | some char_bitmap =>
      let char_width := char_bitmap.headI.length + 1
      if total_width + char_width > 52 then []
      else c :: keptChars rest (total_width + char_width)

/-- Row `i` of the glyph of `c`, empty when out of range or unsupported. -/
def glyphRow (c : Char) (i : Nat) : List Char :=
  (((CHAR_MAP c).getD []).getD i [])

/-- Width of the glyph of `c` (0 when unsupported), as read by the loop. -/
def glyphWidth (c : Char) : Nat :=
  ((CHAR_MAP c).getD []).headI.length

/-- Total width consumed by a list of appended characters: glyph width
plus one spacing column each. -/
def weightSum (cs : List Char) : Nat :=
  (cs.map (fun c => glyphWidth c + 1)).sum

/-- Row `i` of the concatenation of whole glyphs (each followed by its
spacing column) for the characters `cs`. -/
def glyphConcat (cs : List Char) (i : Nat) : List Char :=
  (cs.map (fun c => glyphRow c i ++ ['0'])).flatten

/-!  Date mapping (`write_string_to_git`).  A `datetime.date` is modelled
by its Rata Die day number (day 1 = 0001-01-01 proleptic Gregorian, a
Monday); `d.weekday()` (Monday = 0 … Sunday = 6) is `(rd - 1) % 7`,
written `(rd + 6) % 7` so it is total on `Nat`. -/

/-- Rata Die day number of January 1 of the given year
(proleptic Gregorian). -/
def jan1RD (year : Nat) : Nat :=
  365 * (year - 1) + (year - 1) / 4 - (year - 1) / 100 + (year - 1) / 400 + 1

/-- `d.weekday()` on a Rata Die day number: Monday = 0 … Sunday = 6. -/
def weekday (rd : Nat) : Nat := (rd + 6) % 7

/-- The `while d.weekday() != 6: d += timedelta(days=1)` loop; a Sunday
is always reached within 6 steps, so fuel 7 makes it total without
changing its result. -/
def sundaySearch : Nat → Nat → Nat
  | 0, d => d
  | fuel + 1, d => if weekday d = 6 then d else sundaySearch fuel (d + 1)

/-- The anchor date of `write_string_to_git`: the result of advancing
from January 1 to the first Sunday. -/
def first_sunday (year : Nat) : Nat := sundaySearch 7 (jan1RD year)

/-- `commit_date = d + datetime.timedelta(days=row + col * 7)`: the day
number a lit cell (row, col) is committed on. -/
def commitDay (year row col : Nat) : Nat :=
  first_sunday year + (row + col * 7)

/-- The dates `write_string_to_git` emits, in its iteration order:
`for col in range(len(bitmap_rows[0])): for row in range(7)`, one date
per cell holding '1'. -/
def commit_dates (year : Nat) (bitmap_rows : List (List Char)) : List Nat :=
  (List.range bitmap_rows.headI.length).flatMap (fun col =>
    (List.range 7).filterMap (fun row =>
      if (bitmap_rows.getD row []).getD col ' ' = '1' then
        some (commitDay year row col)
      else none))

/-- `write_string_to_git(text, year)` up to its side effects: year
validation, the git-repository precondition, then the emission loop.
`Except.error 1` models `sys.exit(1)`; the `ok` payload is the list of
emitted commit dates. -/
def write_string_to_git (text : List Char) (year : Int) (in_repo : Bool) :
    Except Nat (List Nat) :=
  if year < 2000 ∨ year > 2100 then Except.error 1
  else if in_repo = false then Except.error 1
  else Except.ok (commit_dates year.toNat (build_bitmap text))

/-- The `__main__` driver after argument parsing: build the bitmap, exit
with status 1 when `not any(bitmap)` (every row an empty, hence falsy,
string), otherwise either preview (`ok none`) or run
`write_string_to_git` (`ok (some dates)`). -/
def main_driver (text : List Char) (year : Int) (preview in_repo : Bool) :
    Except Nat (Option (List Nat)) :=
  let bitmap := build_bitmap text
  if bitmap.all (fun row => row.isEmpty) then Except.error 1
  else if preview then Except.ok none
  else (write_string_to_git text year in_repo).map some

/-! ### Well-formedness of the glyph table -/

/-- Checkable shape of one glyph: exactly 7 rows, all rows of the width
of row 0, and rows 5 and 6 blank. -/
def glyph_ok (g : List (List Char)) : Bool :=
  g.length == 7 && g.all (fun r => r.length == g.headI.length) &&
    (g.getD 5 []).all (fun ch => ch == '0') &&
    (g.getD 6 []).all (fun ch => ch == '0')

lemma charmap_entries_ok :
    CHAR_MAP_entries.all (fun p => glyph_ok (p.2.map String.toList)) = true := by
  decide

lemma charmap_glyph_ok {c : Char} {g : List (List Char)}
    (h : CHAR_MAP c = some g) : glyph_ok g = true := by
  unfold CHAR_MAP at h
  rcases Option.map_eq_some'.mp h with ⟨p, hfind, rfl⟩
  have hmem := List.mem_of_find?_eq_some hfind
  have hall := charmap_entries_ok
  rw [List.all_eq_true] at hall
  exact hall p hmem

lemma glyph_length7 {c : Char} {g : List (List Char)}
    (h : CHAR_MAP c = some g) : g.length = 7 := by
  have hok := charmap_glyph_ok h
  simp only [glyph_ok, Bool.and_eq_true, beq_iff_eq] at hok
  exact hok.1.1.1

lemma glyph_rows_uniform {c : Char} {g : List (List Char)}
    (h : CHAR_MAP c = some g) : ∀ r ∈ g, r.length = g.headI.length := by
  have hok := charmap_glyph_ok h
  simp only [glyph_ok, Bool.and_eq_true, beq_iff_eq, List.all_eq_true] at hok
  exact hok.1.1.2

lemma glyph_row5_zero {c : Char} {g : List (List Char)}
    (h : CHAR_MAP c = some g) : ∀ ch ∈ g.getD 5 [], ch = '0' := by
  have hok := charmap_glyph_ok h
  simp only [glyph_ok, Bool.and_eq_true, beq_iff_eq, List.all_eq_true] at hok
  exact hok.1.2

/-! ### Indexed view of the accumulator update -/

lemma getD_zipWith (f : List Char → List Char → List Char) :
    ∀ (as bs : List (List Char)) (i : Nat), i < as.length → i < bs.length →
      (List.zipWith f as bs).getD i [] = f (as.getD i []) (bs.getD i []) := by
  intro as
  induction as with
  | nil => intro bs i h _; exact absurd h (by simp)
  | cons a as ih =>
    intro bs i ha hb
    cases bs with
    | nil => exact absurd hb (by simp)
    | cons b bs =>
      cases i with
      | zero => simp
      | succ i =>
        simp only [List.zipWith_cons_cons, List.getD_cons_succ]
        exact ih bs i (by simpa using ha) (by simpa using hb)

lemma appendGlyph_getD {rows g : List (List Char)} {i : Nat}
    (hr : i < rows.length) (hg : i < g.length) :
    (appendGlyph rows g).getD i [] = rows.getD i [] ++ g.getD i [] ++ ['0'] := by
  unfold appendGlyph
  exact getD_zipWith _ rows g i hr hg

lemma appendGlyph_length {rows g : List (List Char)}
    (hr : rows.length = 7) (hg : g.length = 7) :
    (appendGlyph rows g).length = 7 := by
  simp [appendGlyph, hr, hg]

/-! ### Structure of the loop's accumulator -/

lemma buildLoop_length : ∀ (l : List Char) (total : Nat) (rows : List (List Char)),
    rows.length = 7 → (buildLoop l total rows).length = 7 := by
  intro l
  induction l with
  | nil => intro total rows h; simpa [buildLoop] using h
  | cons c rest ih =>
    intro total rows h
    unfold buildLoop
    cases hc : CHAR_MAP c with
    | none => exact ih total rows h
    | some g =>
      simp only
      split
      · exact h
      · exact ih _ _ (appendGlyph_length h (glyph_length7 hc))

lemma keptChars_supported : ∀ (l : List Char) (total : Nat) (c : Char),
    c ∈ keptChars l total → (CHAR_MAP c).isSome = true := by
  intro l
  induction l with
  | nil => intro total c h; simp [keptChars] at h
  | cons a rest ih =>
    intro total c h
    unfold keptChars at h
    cases ha : CHAR_MAP a with
    | none => rw [ha] at h; exact ih total c h
    | some g =>
      rw [ha] at h
      simp only at h
      split at h
      · simp at h
      · rcases List.mem_cons.mp h with rfl | hmem
        · simp [ha]
        · exact ih _ c hmem

lemma buildLoop_getD : ∀ (l : List Char) (total : Nat) (rows : List (List Char)),
    rows.length = 7 → ∀ i, i < 7 →
      (buildLoop l total rows).getD i [] =
        rows.getD i [] ++ glyphConcat (keptChars l total) i := by
  intro l
  induction l with
  | nil => intro total rows _ i _; simp [buildLoop, keptChars, glyphConcat]
  | cons c rest ih =>
    intro total rows h i hi
    unfold buildLoop keptChars
    cases hc : CHAR_MAP c with
    | none => exact ih total rows h i hi
    | some g =>
      simp only
      split
      · simp [glyphConcat]
      · have hg7 : g.length = 7 := glyph_length7 hc
        rw [ih _ _ (appendGlyph_length h hg7) i hi,
          appendGlyph_getD (by omega) (by omega)]
        have hrow : glyphRow c i = g.getD i [] := by
          simp [glyphRow, hc]
        simp [glyphConcat, hrow, List.append_assoc]

lemma buildLoop_weight : ∀ (l : List Char) (total : Nat), total ≤ 52 →
    total + weightSum (keptChars l total) ≤ 52 := by
  intro l
  induction l with
  | nil => intro total h; simpa [keptChars, weightSum] using h
  | cons c rest ih =>
    intro total h
    unfold keptChars
    cases hc : CHAR_MAP c with
    | none => exact ih total h
    | some g =>
      simp only
      split
      · simpa [weightSum] using h
      · have hw : glyphWidth c = g.headI.length := by simp [glyphWidth, hc]
        have := ih (total + (g.headI.length + 1)) (by omega)
        simp only [weightSum, List.map_cons, List.sum_cons] at *
        omega

lemma glyph_row6_zero {c : Char} {g : List (List Char)}
    (h : CHAR_MAP c = some g) : ∀ ch ∈ g.getD 6 [], ch = '0' := by
  have hok := charmap_glyph_ok h
  simp only [glyph_ok, Bool.and_eq_true, beq_iff_eq, List.all_eq_true] at hok
  exact hok.2

lemma glyphRow_length {c : Char} {g : List (List Char)}
    (h : CHAR_MAP c = some g) {i : Nat} (hi : i < 7) :
    (glyphRow c i).length = glyphWidth c := by
  have hg7 : g.length = 7 := glyph_length7 h
  have hrow : glyphRow c i = g.getD i [] := by simp [glyphRow, h]
  have hlt : i < g.length := by omega
  have hmem : g.getD i [] ∈ g := by
    rw [List.getD_eq_getElem g [] hlt]
    exact List.getElem_mem hlt
  have := glyph_rows_uniform h _ hmem
  rw [hrow, this]
  simp [glyphWidth, h]

lemma glyphConcat_length : ∀ (cs : List Char) (i : Nat),
    (∀ c ∈ cs, (CHAR_MAP c).isSome = true) → i < 7 →
      (glyphConcat cs i).length = weightSum cs := by
  intro cs
  induction cs with
  | nil => intro i _ _; simp [glyphConcat, weightSum]
  | cons c cs ih =>
    intro i hsup hi
    obtain ⟨g, hg⟩ := Option.isSome_iff_exists.mp (hsup c (by simp))
    have := ih i (fun d hd => hsup d (by simp [hd])) hi
    simp only [glyphConcat, List.map_cons, List.flatten_cons, weightSum,
      List.sum_cons, List.length_append, List.length_cons, List.length_nil] at *
    rw [glyphRow_length hg hi]
    omega

lemma glyphConcat_row5_zero : ∀ (cs : List Char),
    (∀ c ∈ cs, (CHAR_MAP c).isSome = true) →
      ∀ ch ∈ glyphConcat cs 5, ch = '0' := by
  intro cs
  induction cs with
  | nil => intro _ ch h; simp [glyphConcat] at h
  | cons c cs ih =>
    intro hsup ch h
    obtain ⟨g, hg⟩ := Option.isSome_iff_exists.mp (hsup c (by simp))
    simp only [glyphConcat, List.map_cons, List.flatten_cons, List.mem_append,
      List.mem_cons] at h
    rcases h with (h | h) | h
    · have hrow : glyphRow c 5 = g.getD 5 [] := by simp [glyphRow, hg]
      exact glyph_row5_zero hg ch (hrow ▸ h)
    · simp at h; exact h
    · exact ih (fun d hd => hsup d (by simp [hd])) ch h

/-! ### The accumulator rows of a full call -/

lemma rawRows_length (text : List Char) : (rawRows text).length = 7 :=
  buildLoop_length _ _ _ (by simp)

lemma rawRows_getD (text : List Char) {i : Nat} (hi : i < 7) :
    (rawRows text).getD i [] =
      glyphConcat (keptChars (prepared_text text) 0) i := by
  unfold rawRows
  rw [buildLoop_getD _ _ _ (by simp) i hi]
  interval_cases i <;> rfl

lemma rawRows_supported (text : List Char) :
    ∀ c ∈ keptChars (prepared_text text) 0, (CHAR_MAP c).isSome = true :=
  fun c hc => keptChars_supported _ _ c hc

lemma rawRows_weight (text : List Char) :
    weightSum (keptChars (prepared_text text) 0) ≤ 52 := by
  have := buildLoop_weight (prepared_text text) 0 (by omega)
  omega

lemma rawRows_mem_length (text : List Char) :
    ∀ r ∈ rawRows text, r.length = weightSum (keptChars (prepared_text text) 0) := by
  intro r hr
  obtain ⟨i, hi, hEq⟩ := List.mem_iff_getElem.mp hr
  have hi7 : i < 7 := by have := rawRows_length text; omega
  rw [← hEq, ← List.getD_eq_getElem (rawRows text) [] hi, rawRows_getD text hi7]
  exact glyphConcat_length _ i (rawRows_supported text) hi7

lemma build_bitmap_eq (text : List Char) :
    build_bitmap text =
      List.replicate (rawRows text).headI.length '0' :: (rawRows text).dropLast := rfl

lemma rawRows_headI_length (text : List Char) :
    (rawRows text).headI.length = weightSum (keptChars (prepared_text text) 0) := by
  have h7 := rawRows_length text
  have hne : rawRows text ≠ [] := by
    intro h; rw [h] at h7; simp at h7
  obtain ⟨r, rest, hEq⟩ := List.exists_cons_of_ne_nil hne
  have : r ∈ rawRows text := by rw [hEq]; simp
  rw [hEq, List.headI_cons]
  exact rawRows_mem_length text r this

/-- C1: for every input string, `build_bitmap` returns exactly 7 rows,
all rows have equal length, and row 0 of the returned bitmap consists
entirely of '0' characters. -/
theorem build_bitmap_seven_rows_uniform_row0_zero (text : List Char) :
    (build_bitmap text).length = 7 ∧
    (∀ r ∈ build_bitmap text, r.length = (build_bitmap text).headI.length) ∧
    ∀ ch ∈ (build_bitmap text).headI, ch = '0' := by
  have h7 := rawRows_length text
  refine ⟨?_, ?_, ?_⟩
  · rw [build_bitmap_eq]
    simp [h7]
  · intro r hr
    rw [build_bitmap_eq] at hr ⊢
    rw [List.headI_cons, List.length_replicate]
    rcases List.mem_cons.mp hr with rfl | hmem
    · simp
    · have : r ∈ rawRows text := List.dropLast_subset _ hmem
      rw [rawRows_mem_length text r this, rawRows_headI_length]
  · rw [build_bitmap_eq, List.headI_cons]
    intro ch hch
    exact (List.eq_of_mem_replicate hch)

/-- C2: every row of the returned bitmap has length at most 52, and the
accumulator rows are exactly a concatenation of whole glyphs (each with
its trailing spacing column) of supported characters — the overflow
check runs before any column of a glyph is appended, so no glyph is
ever partially included. -/
theorem build_bitmap_width_bound_whole_glyphs (text : List Char) :
    (∀ r ∈ build_bitmap text, r.length ≤ 52) ∧
    ∃ cs : List Char, (∀ c ∈ cs, (CHAR_MAP c).isSome = true) ∧
      ∀ i, i < 7 → (rawRows text).getD i [] = glyphConcat cs i := by
  constructor
  · intro r hr
    have hW := rawRows_weight text
    have := (build_bitmap_seven_rows_uniform_row0_zero text).2.1 r hr
    rw [build_bitmap_eq, List.headI_cons, List.length_replicate,
      rawRows_headI_length] at this
    omega
  · exact ⟨keptChars (prepared_text text) 0, rawRows_supported text,
      fun i hi => rawRows_getD text hi⟩

/-- C3: `build_bitmap "1"` is the 7-row bitmap of width 4 whose row 0 is
"0000", rows 1–5 are the glyph rows of '1' each with one trailing
spacing column, and row 6 is "0000". -/
theorem build_bitmap_one_concrete :
    build_bitmap ['1'] =
      [r"0000", r"0100", r"1100", r"0100", r"0100", r"1110", r"0000"].map
        String.toList := by
  decide

/-- C10: row 6 of the returned bitmap is entirely '0': the downward
shift makes it equal the accumulated row 5, every glyph of CHAR_MAP has
all-zero rows at indices 5 and 6, so ink is confined to rows 1–5. -/
theorem build_bitmap_row6_zero (text : List Char) :
    (∀ ch ∈ (build_bitmap text).getD 6 [], ch = '0') ∧
    (build_bitmap text).getD 6 [] = (rawRows text).getD 5 [] ∧
    ∀ c g, CHAR_MAP c = some g →
      (∀ ch ∈ g.getD 5 [], ch = '0') ∧ ∀ ch ∈ g.getD 6 [], ch = '0' := by
  have h7 := rawRows_length text
  have hdrop : (build_bitmap text).getD 6 [] = (rawRows text).getD 5 [] := by
    rw [build_bitmap_eq, List.getD_cons_succ]
    have h5 : 5 < (rawRows text).dropLast.length := by
      rw [List.length_dropLast, h7]; omega
    rw [List.getD_eq_getElem _ [] h5, List.getElem_dropLast,
      List.getD_eq_getElem _ [] (by omega)]
  refine ⟨?_, hdrop, fun c g hg => ⟨glyph_row5_zero hg, glyph_row6_zero hg⟩⟩
  rw [hdrop, rawRows_getD text (by omega)]
  exact glyphConcat_row5_zero _ (rawRows_supported text)

/-! ### Skipping and truncation -/

/-- C5: `build_bitmap "a#b"` equals `build_bitmap "ab"`, and in general a
character without a CHAR_MAP entry is skipped by the loop: it changes
neither the width accumulator nor the rows, never takes the break path,
and the loop continues with the remaining characters. -/
theorem build_bitmap_skips_unsupported :
    build_bitmap ['a', '#', 'b'] = build_bitmap ['a', 'b'] ∧
    ∀ (c : Char) (rest : List Char) (total : Nat) (rows : List (List Char)),
      CHAR_MAP c = none →
        buildLoop (c :: rest) total rows = buildLoop rest total rows ∧
        truncIndex (c :: rest) total = (truncIndex rest total).map (fun k => k + 1) := by
  refine ⟨by decide, fun c rest total rows h => ⟨?_, ?_⟩⟩
  · simp [buildLoop, h]
  · simp [truncIndex, h]

theorem build_bitmap_skips_unsupported_witness :
    buildLoop ['#'] 0 (List.replicate 7 []) = buildLoop [] 0 (List.replicate 7 []) :=
  ((build_bitmap_skips_unsupported.2 '#' [] 0 (List.replicate 7 []) (by decide)).1)

lemma truncIndex_lt_length : ∀ (l : List Char) (total k : Nat),
    truncIndex l total = some k → k < l.length := by
  intro l
  induction l with
  | nil => intro total k h; simp [truncIndex] at h
  | cons c rest ih =>
    intro total k h
    unfold truncIndex at h
    cases hc : CHAR_MAP c with
    | none =>
      rw [hc] at h
      rcases Option.map_eq_some'.mp h with ⟨j, hj, rfl⟩
      have := ih total j hj
      simp only [List.length_cons]
      omega
    | some g =>
      rw [hc] at h
      simp only at h
      split at h
      · simp only [Option.some.injEq] at h
        simp [← h]
      · rcases Option.map_eq_some'.mp h with ⟨j, hj, rfl⟩
        have := ih _ j hj
        simp only [List.length_cons]
        omega

lemma buildLoop_take_truncIndex : ∀ (l : List Char) (total : Nat)
    (rows : List (List Char)) (k : Nat), truncIndex l total = some k →
      buildLoop (l.take k) total rows = buildLoop l total rows := by
  intro l
  induction l with
  | nil => intro total rows k h; simp [truncIndex] at h
  | cons c rest ih =>
    intro total rows k h
    unfold truncIndex at h
    cases hc : CHAR_MAP c with
    | none =>
      rw [hc] at h
      rcases Option.map_eq_some'.mp h with ⟨j, hj, rfl⟩
      rw [List.take_succ_cons]
      show buildLoop (c :: rest.take j) total rows = buildLoop (c :: rest) total rows
      simp only [buildLoop, hc]
      exact ih total rows j hj
    | some g =>
      rw [hc] at h
      simp only at h
      split at h
      · rename_i hover
        simp only [Option.some.injEq] at h
        subst h
        simp only [List.take_zero, buildLoop, hc]
        rw [if_pos hover]
      · rename_i hfits
        rcases Option.map_eq_some'.mp h with ⟨j, hj, rfl⟩
        rw [List.take_succ_cons]
        show buildLoop (c :: rest.take j) total rows = buildLoop (c :: rest) total rows
        simp only [buildLoop, hc]
        rw [if_neg hfits, if_neg hfits]
        exact ih _ _ j hj

/-- C6: if `build_bitmap text` stops early at character index k because
the next glyph would exceed the 52-column limit, then `build_bitmap`
of the k-character prefix of the input returns the identical bitmap. -/
theorem build_bitmap_truncation_monotone (text : List Char) (k : Nat)
    (h : build_trunc_index text = some k) :
    build_bitmap (text.take k) = build_bitmap text := by
  have hk : k < (prepared_text text).length :=
    truncIndex_lt_length _ _ _ h
  have hk10 : k ≤ get_max_chars 52 4 1 := by
    have : (prepared_text text).length ≤ get_max_chars 52 4 1 := by
      unfold prepared_text
      rw [List.length_take]
      omega
    omega
  have hprep : prepared_text (text.take k) = (prepared_text text).take k := by
    unfold prepared_text
    rw [← List.map_take, List.take_take, List.take_take, Nat.min_comm,
      List.map_take]
  have hraw : rawRows (text.take k) = rawRows text := by
    unfold rawRows
    rw [hprep]
    exact buildLoop_take_truncIndex _ _ _ _ h
  unfold build_bitmap
  rw [hraw]

theorem build_bitmap_truncation_monotone_witness :
    build_trunc_index (List.replicate 9 'm') = some 8 ∧
    build_bitmap ((List.replicate 9 'm').take 8) =
      build_bitmap (List.replicate 9 'm') :=
  ⟨by decide, build_bitmap_truncation_monotone (List.replicate 9 'm') 8 (by decide)⟩

/-! ### The coarse pre-truncation is observable -/

/-- C4 counterexample: on thirteen '1' characters the coarse
`text[:get_max_chars()]` cap keeps only ten of them (width 40), while
the variant governed solely by the precise width check renders all
thirteen (width 52), so the two functions differ at this input. -/
theorem build_bitmap_pretrunc_counterexample :
    build_bitmap (List.replicate 13 '1') ≠
      build_bitmap_no_pretrunc (List.replicate 13 '1') := by
  decide

/-- C4 amended: for inputs of at most `get_max_chars()` = 10 characters
the coarse pre-truncation is a no-op and `build_bitmap` agrees with the
variant that drops it; for longer inputs the coarse cap can change the
observable output, so it is not a pure optimization. -/
theorem build_bitmap_pretrunc_agrees_on_short (text : List Char)
    (h : text.length ≤ get_max_chars 52 4 1) :
    build_bitmap text = build_bitmap_no_pretrunc text := by
  have hprep : prepared_text text = text.map Char.toLower := by
    unfold prepared_text
    apply List.take_of_length_le
    simpa using h
  unfold build_bitmap build_bitmap_no_pretrunc rawRows
  rw [hprep]

theorem build_bitmap_pretrunc_agrees_on_short_witness :
    (['a', 'b'] : List Char).length ≤ get_max_chars 52 4 1 ∧
    build_bitmap ['a', 'b'] = build_bitmap_no_pretrunc ['a', 'b'] :=
  ⟨by decide, build_bitmap_pretrunc_agrees_on_short ['a', 'b'] (by decide)⟩

/-! ### Date mapping -/

lemma sundaySearch_fuel : ∀ (fuel d : Nat), 6 - weekday d ≤ fuel →
    sundaySearch fuel d = d + (6 - weekday d) := by
  intro fuel
  induction fuel with
  | zero =>
    intro d h
    unfold weekday at *
    unfold sundaySearch
    omega
  | succ fuel ih =>
    intro d h
    unfold sundaySearch
    split
    · rename_i h6
      unfold weekday at *
      omega
    · rename_i h6
      rw [ih (d + 1) (by unfold weekday at *; omega)]
      unfold weekday at *
      omega

lemma first_sunday_eq (year : Nat) :
    first_sunday year = jan1RD year + (6 - weekday (jan1RD year)) :=
  sundaySearch_fuel 7 (jan1RD year) (by unfold weekday; omega)

/-- C7: for every year the anchor computed by `write_string_to_git` is
the first Sunday on or after January 1 of that year (day numbers are
Rata Die, `weekday` 6 is Sunday), each lit cell (row, col) is committed
on anchor + (col·7 + row) days, and for 2024 cell (0, 0) lands on the
anchor itself while cell (6, 1) lands on anchor + 13 days. -/
theorem write_string_to_git_date_mapping (year : Nat) :
    jan1RD year ≤ first_sunday year ∧
    weekday (first_sunday year) = 6 ∧
    (∀ e, jan1RD year ≤ e → e < first_sunday year → weekday e ≠ 6) ∧
    (∀ row col, commitDay year row col = first_sunday year + (col * 7 + row)) ∧
    commitDay 2024 0 0 = first_sunday 2024 ∧
    commitDay 2024 6 1 = first_sunday 2024 + 13 := by
  have he := first_sunday_eq year
  refine ⟨?_, ?_, ?_, ?_, ?_, ?_⟩
  · rw [he]; omega
  · rw [he]; unfold weekday at *; omega
  · intro e h1 h2
    rw [he] at h2
    unfold weekday at *
    omega
  · intro row col
    unfold commitDay
    omega
  · unfold commitDay
    omega
  · unfold commitDay
    omega

theorem write_string_to_git_date_mapping_witness :
    weekday (first_sunday 2024) = 6 ∧
    commitDay 2024 6 1 = first_sunday 2024 + 13 ∧
    weekday (jan1RD 2024) ≠ 6 :=
  ⟨(write_string_to_git_date_mapping 2024).2.1,
   (write_string_to_git_date_mapping 2024).2.2.2.2.2,
   (write_string_to_git_date_mapping 2024).2.2.1 (jan1RD 2024) (Nat.le_refl _)
     (by decide)⟩

/-! ### Year validation and the empty-result condition -/

/-- C8: a year outside [2000, 2100] makes `write_string_to_git` exit
with status 1 before any emission is attempted, whatever the git state;
every year inside [2000, 2100] passes the validation, and with the git
precondition satisfied emission proceeds. -/
theorem write_string_to_git_year_validation (text : List Char) (year : Int) :
    ((year < 2000 ∨ year > 2100) →
      ∀ in_repo, write_string_to_git text year in_repo = Except.error 1) ∧
    (2000 ≤ year → year ≤ 2100 →
      write_string_to_git text year true =
        Except.ok (commit_dates year.toNat (build_bitmap text))) := by
  constructor
  · intro h in_repo
    unfold write_string_to_git
    rw [if_pos h]
  · intro h1 h2
    unfold write_string_to_git
    rw [if_neg (by omega), if_neg (by simp)]

theorem write_string_to_git_year_validation_witness :
    write_string_to_git ['h', 'i'] 1999 false = Except.error 1 ∧
    write_string_to_git ['h', 'i'] 2024 true =
      Except.ok (commit_dates ((2024 : Int)).toNat (build_bitmap ['h', 'i'])) :=
  ⟨(write_string_to_git_year_validation ['h', 'i'] 1999).1 (by decide) false,
   (write_string_to_git_year_validation ['h', 'i'] 2024).2 (by decide) (by decide)⟩

lemma buildLoop_unsupported : ∀ (l : List Char) (total : Nat)
    (rows : List (List Char)), (∀ c ∈ l, CHAR_MAP c = none) →
      buildLoop l total rows = rows := by
  intro l
  induction l with
  | nil => intro total rows _; rfl
  | cons c rest ih =>
    intro total rows h
    have hc : CHAR_MAP c = none := h c (by simp)
    simp only [buildLoop, hc]
    exact ih total rows (fun d hd => h d (by simp [hd]))

/-- C9: when every character the loop sees is unsupported (in particular
for the empty string), `build_bitmap` returns 7 rows all of length 0,
and the driver treats this as fatal: exit status 1, with no emission
attempted, whatever the year, mode and git state. -/
theorem build_bitmap_empty_result (text : List Char)
    (h : ∀ c ∈ prepared_text text, CHAR_MAP c = none) :
    ((build_bitmap text).length = 7 ∧ ∀ r ∈ build_bitmap text, r.length = 0) ∧
    ∀ (year : Int) (preview in_repo : Bool),
      main_driver text year preview in_repo = Except.error 1 := by
  have hraw : rawRows text = List.replicate 7 [] :=
    buildLoop_unsupported _ _ _ h
  have hbm : build_bitmap text = List.replicate 7 [] := by
    rw [build_bitmap_eq, hraw]
    rfl
  refine ⟨⟨by rw [hbm]; rfl, fun r hr => ?_⟩, fun year preview in_repo => ?_⟩
  · rw [hbm] at hr
    rw [List.eq_of_mem_replicate hr]
    rfl
  · unfold main_driver
    rw [hbm]
    rfl

theorem build_bitmap_empty_result_witness :
    (build_bitmap ['#']).length = 7 ∧
    main_driver ['#'] 2024 false true = Except.error 1 :=
  ⟨((build_bitmap_empty_result ['#'] (by decide)).1).1,
   (build_bitmap_empty_result ['#'] (by decide)).2 2024 false true⟩
